import Mathlib

/-!
Shallow embedding of the reactive component runtime of the `ratatui-kit`
package: the generational State/Store cells, the hook slot sequence, the
context stack, the child-reconciliation multimap, the aggregate change
poll, and the terminal event fan-out.  Each definition mirrors the Rust
source file named in its doc comment; machine behaviour that Lean cannot
express directly (panics, drop glue, weak references) is made explicit
(Except for panics, explicit release functions for drop glue, Option for
weak references).
-/

namespace RatatuiKit

/-- Wakers are opaque handles; we identify them by a natural number. -/
abbrev Waker := Nat

/-- Result of a poll, mirroring `std::task::Poll<()>`. -/
inductive Poll where
  | ready
  | pending
deriving DecidableEq, Repr

/-! ### State cells (src/hooks/use_state.rs) -/

/-- Mirrors `StateValue<T>`: the current value, the (single-slot) stored
waker, and the changed flag. -/
structure StateValue (T : Type) where
  value : T
  waker : Option Nat
  is_changed : Bool
deriving DecidableEq, Repr

/-- Mirrors `StateMutRef<'a, T>`: the write guard produced by `try_write`,
carrying the flag recording whether it was ever mutably dereferenced.
A fresh guard has `is_deref_mut = false` (see `State::try_write`). -/
structure StateMutRef (T : Type) where
  inner : StateValue T
  is_deref_mut : Bool
deriving DecidableEq, Repr

/-- Reading through the guard (`Deref for StateMutRef`): returns the value
and leaves the guard untouched. -/
def StateMutRef.deref {T : Type} (r : StateMutRef T) : T :=
  r.inner.value

/-- Writing the value `x` through the guard: `DerefMut for StateMutRef`
sets `is_deref_mut` and hands out the mutable reference, through which the
assignment stores `x`. -/
def StateMutRef.assign {T : Type} (r : StateMutRef T) (x : T) : StateMutRef T :=
  { inner := { r.inner with value := x }, is_deref_mut := true }

/-- Mutating the value with `f` through the guard (same `DerefMut` path as
`assign`, used by the compound assignment operators). -/
def StateMutRef.modify {T : Type} (r : StateMutRef T) (f : T → T) : StateMutRef T :=
  { inner := { r.inner with value := f r.inner.value }, is_deref_mut := true }

/-- Mirrors `Drop for StateMutRef`: releasing the guard.  If the guard was
mutably dereferenced, the changed flag is set and the stored waker, if any,
is taken (clearing the registration) and woken; otherwise the cell is left
exactly as it was.  Returns the resulting cell value together with the list
of wakers that were woken. -/
def StateMutRef.release {T : Type} (r : StateMutRef T) : StateValue T × List Nat :=
  if r.is_deref_mut then
    ({ value := r.inner.value, waker := none, is_changed := true },
     r.inner.waker.toList)
  else
    (r.inner, [])

/-- Borrow errors of the generational arena (`generational_box`). -/
inductive BorrowErr where
  | droppedSlot
  | alreadyBorrowedMut
deriving DecidableEq, Repr

/-- Observable state of a generational arena slot holding a `StateValue`:
torn down, currently mutably borrowed, or free. -/
inductive CellState (T : Type) where
  | dropped
  | borrowedMut (v : StateValue T)
  | free (v : StateValue T)
deriving DecidableEq, Repr

/-- Mirrors `GenerationalBox::try_read` as observed through the loop in
`State::try_read`: succeeds on a free slot, reports `Dropped` on a torn
down slot, and `AlreadyBorrowedMut` while a write guard is outstanding. -/
def tryReadCell {T : Type} : CellState T → Except BorrowErr T
  | CellState.dropped => Except.error BorrowErr.droppedSlot
  | CellState.borrowedMut _ => Except.error BorrowErr.alreadyBorrowedMut
  | CellState.free v => Except.ok v.value

/-- Mirrors `GenerationalBox::try_write` wrapped by `State::try_write`: on a
free slot it yields a fresh guard with `is_deref_mut = false`. -/
def tryWriteCell {T : Type} : CellState T → Except BorrowErr (StateMutRef T)
  | CellState.dropped => Except.error BorrowErr.droppedSlot
  | CellState.borrowedMut _ => Except.error BorrowErr.alreadyBorrowedMut
  | CellState.free v => Except.ok { inner := v, is_deref_mut := false }

/-- Mirrors `UseStateImpl::poll_change` (src/hooks/use_state.rs, lines
57-72): try_write the cell; if that fails, stay pending; otherwise, if the
changed flag is set, clear it and report ready, else store the caller's
waker and stay pending. -/
def useStatePollChange {T : Type} (st : CellState T) (w : Nat) :
    Poll × CellState T :=
  match st with
  | CellState.free v =>
      if v.is_changed then
        (Poll.ready, CellState.free { v with is_changed := false })
      else
        (Poll.pending, CellState.free { v with waker := some w })
  | other => (Poll.pending, other)

/-- Mirrors `State::read` (panics with the given message when `try_read`
returns `None`).  A read borrows the value through `StateRef`, whose only
capability is `Deref`, so the cell is returned unchanged. -/
def State.readOp {T : Type} (st : CellState T) : Except String (T × CellState T) :=
  match tryReadCell st with
  | Except.ok v => Except.ok (v, st)
  | Except.error _ =>
      Except.error "attempt to read state after owner was dropped"

/-- Mirrors `State::write`: panics when `try_write` returns `None`,
otherwise yields the fresh guard. -/
def State.writeOp {T : Type} (st : CellState T) : Except String (StateMutRef T) :=
  match tryWriteCell st with
  | Except.ok g => Except.ok g
  | Except.error _ =>
      Except.error "attempt to write state after owner was dropped"

/-- Mirrors `State::set` (src/hooks/use_state.rs, lines 190-194):
`if let Some(mut v) = self.try_write() { *v = value; }` — on success the
guard is assigned through `DerefMut` and released at the end of the `if`
body; when `try_write` fails nothing at all happens.  `set` has no panic
path.  Returns the resulting cell together with the woken wakers. -/
def State.setOp {T : Type} (st : CellState T) (x : T) : CellState T × List Nat :=
  match tryWriteCell st with
  | Except.ok g =>
      let r := (g.assign x).release
      (CellState.free r.1, r.2)
  | Except.error _ => (st, [])

/-- Mirrors `AddAssign for State<T>` (and its `Sub`/`Mul`/`Div` siblings):
`if let Some(mut v) = self.try_write() { *v += rhs; }` — again with no
panic path. -/
def State.addAssignOp {T : Type} [Add T] (st : CellState T) (x : T) :
    CellState T × List Nat :=
  match tryWriteCell st with
  | Except.ok g =>
      let r := (g.modify (fun v => v + x)).release
      (CellState.free r.1, r.2)
  | Except.error _ => (st, [])

/-- Mirrors the retry loop in `State::try_read` (src/hooks/use_state.rs,
lines 153-168), with explicit fuel so that non-termination is observable:
`none` means the loop was still running when the fuel ran out.  One loop
iteration does `try_read`; on `Ok` it returns the value, on `Dropped` it
returns `none`-value, and on `AlreadyBorrowedMut` it calls `try_write`,
returning `none`-value on `Dropped` and retrying otherwise.  The cell state
is not changed by the loop, so it is passed unchanged to each retry. -/
def State.tryReadLoop {T : Type} : Nat → CellState T → Option (Option T)
  | 0, _ => none
  | Nat.succ fuel, st =>
      match tryReadCell st with
      | Except.ok v => some (some v)
      | Except.error BorrowErr.droppedSlot => some none
      | Except.error BorrowErr.alreadyBorrowedMut =>
          match tryWriteCell st with
          | Except.error BorrowErr.droppedSlot => some none
          | _ => State.tryReadLoop fuel st

/-! ### Store cells (src/store/mod.rs) -/

/-- Mirrors `StoreValue<T>`: the value, the changed flag, and the map of
per-consumer wakers keyed by `ElementKey` (the map is embedded as an
association list with distinct keys). -/
structure StoreValue (T : Type) where
  value : T
  is_changed : Bool
  wakers : List (Nat × Nat)
deriving DecidableEq, Repr

/-- Mirrors `StoreStateMut<'a, T>`: the write guard of a store cell. -/
structure StoreStateMut (T : Type) where
  inner : StoreValue T
  is_deref_mut : Bool
deriving DecidableEq, Repr

/-- Writing `x` through the store guard (`DerefMut for StoreStateMut`). -/
def StoreStateMut.assign {T : Type} (r : StoreStateMut T) (x : T) : StoreStateMut T :=
  { inner := { r.inner with value := x }, is_deref_mut := true }

/-- Mirrors `Drop for StoreStateMut` (src/store/mod.rs, lines 96-108): if
the guard was mutably dereferenced, set the changed flag and wake every
stored waker by reference — `wake_by_ref` does not remove them, so the
waker map is retained unchanged.  Returns the resulting cell value and the
list of woken wakers. -/
def StoreStateMut.release {T : Type} (r : StoreStateMut T) : StoreValue T × List Nat :=
  if r.is_deref_mut then
    ({ r.inner with is_changed := true }, r.inner.wakers.map Prod.snd)
  else
    (r.inner, [])

/-- Observable state of the store's arena slot. -/
inductive StoreCell (T : Type) where
  | dropped
  | borrowedMut (v : StoreValue T)
  | free (v : StoreValue T)
deriving DecidableEq, Repr

/-- Mirrors `GenerationalBox::try_write` for the store slot. -/
def tryWriteStore {T : Type} : StoreCell T → Except BorrowErr (StoreStateMut T)
  | StoreCell.dropped => Except.error BorrowErr.droppedSlot
  | StoreCell.borrowedMut _ => Except.error BorrowErr.alreadyBorrowedMut
  | StoreCell.free v => Except.ok { inner := v, is_deref_mut := false }

/-- Mirrors `GenerationalBox::try_read` for the store slot. -/
def tryReadStore {T : Type} : StoreCell T → Except BorrowErr T
  | StoreCell.dropped => Except.error BorrowErr.droppedSlot
  | StoreCell.borrowedMut _ => Except.error BorrowErr.alreadyBorrowedMut
  | StoreCell.free v => Except.ok v.value

/-- Insertion into the waker association list, mirroring `HashMap::insert`:
replaces the entry of an existing key, otherwise appends. -/
def insertWaker (k w : Nat) : List (Nat × Nat) → List (Nat × Nat)
  | [] => [(k, w)]
  | (k', w') :: rest =>
      if k' = k then (k, w) :: rest else (k', w') :: insertWaker k w rest

/-- Mirrors `UseStoreImpl::poll_change` (src/store/use_store.rs, lines
37-50): try_write the cell; on failure stay pending; if the changed flag is
set, clear it, clear the whole waker map, and report ready; otherwise
insert this consumer's waker under its key and stay pending. -/
def useStorePollChange {T : Type} (st : StoreCell T) (key w : Nat) :
    Poll × StoreCell T :=
  match st with
  | StoreCell.free v =>
      if v.is_changed then
        (Poll.ready, StoreCell.free { v with is_changed := false, wakers := [] })
      else
        (Poll.pending, StoreCell.free { v with wakers := insertWaker key w v.wakers })
  | other => (Poll.pending, other)

/-- Mirrors `StoreState::read`: panics when the slot is unavailable. -/
def StoreState.readOp {T : Type} (st : StoreCell T) :
    Except String (T × StoreCell T) :=
  match tryReadStore st with
  | Except.ok v => Except.ok (v, st)
  | Except.error _ =>
      Except.error "attempt to read state after owner was dropped"

/-- Mirrors `StoreState::write`: panics when the slot is unavailable. -/
def StoreState.writeOp {T : Type} (st : StoreCell T) :
    Except String (StoreStateMut T) :=
  match tryWriteStore st with
  | Except.ok g => Except.ok g
  | Except.error _ =>
      Except.error "attempt to write state after owner was dropped"

/-- Mirrors `StoreState::set` (src/store/mod.rs, lines 151-155): the same
silent `if let Some` pattern as `State::set`, with no panic path. -/
def StoreState.setOp {T : Type} (st : StoreCell T) (x : T) :
    StoreCell T × List Nat :=
  match tryWriteStore st with
  | Except.ok g =>
      let r := (g.assign x).release
      (StoreCell.free r.1, r.2)
  | Except.error _ => (st, [])

/-- Mirrors the retry loop in `StoreState::try_read` (src/store/mod.rs,
lines 114-128), identical in shape to `State::try_read`. -/
def StoreState.tryReadLoop {T : Type} : Nat → StoreCell T → Option (Option T)
  | 0, _ => none
  | Nat.succ fuel, st =>
      match tryReadStore st with
      | Except.ok v => some (some v)
      | Except.error BorrowErr.droppedSlot => some none
      | Except.error BorrowErr.alreadyBorrowedMut =>
          match tryWriteStore st with
          | Except.error BorrowErr.droppedSlot => some none
          | _ => StoreState.tryReadLoop fuel st

/-! ### Context stack (src/context.rs) -/

/-- One entry of the context stack: a type-erased value, embedded as a
runtime type tag plus a payload. -/
structure CtxEntry where
  typeId : Nat
  value : Nat
deriving DecidableEq, Repr

/-- Mirrors `ContextStack::get_context` (src/context.rs, lines 89-98): scan
the stack from the most recently pushed entry backwards (the Rust `Vec` is
scanned with `iter().rev()`) and return the first entry whose payload
downcasts to the requested type. -/
def getContext (stack : List CtxEntry) (t : Nat) : Option Nat :=
  match stack.reverse.find? (fun e => e.typeId = t) with
  | some e => some e.value
  | none => none

/-- Mirrors `ContextStack::with_context` (src/context.rs, lines 72-87): if
a context is supplied, push it, run the body on the extended stack, and pop
it again before returning; otherwise run the body on the stack as is.  The
body is a function of the stack it observes (inside the runtime it only
performs balanced nested pushes of its own, which this embedding folds into
the function).  Returns the body's result and the stack as it is when
control returns to the caller. -/
def withContext {A : Type} (stack : List CtxEntry) (c : Option CtxEntry)
    (f : List CtxEntry → A) : A × List CtxEntry :=
  match c with
  | some ctx =>
      let pushed := stack ++ [ctx]
      (f pushed, pushed.dropLast)
  | none => (f stack, stack)

/-! ### Child-collection multimap (src/multimap.rs) -/

/-- Mirrors `RemoveOnlyMultimap<K, V>` (and `AppendOnlyMultimap`, which has
the same representation): a vector of occupied/vacated slots plus a map
from key to the queue of slot indices pushed under that key.  The `HashMap`
is embedded as an association list with distinct keys. -/
structure Multimap (V : Type) where
  items : List (Option V)
  m : List (Nat × List Nat)
deriving DecidableEq, Repr

/-- The empty multimap (`Default`). -/
def Multimap.empty {V : Type} : Multimap V := { items := [], m := [] }

/-- Lookup of a key's index queue (mirrors `HashMap::get_mut`). -/
def dequeOf (m : List (Nat × List Nat)) (k : Nat) : Option (List Nat) :=
  match m.find? (fun p => p.1 = k) with
  | some p => some p.2
  | none => none

/-- Replace a key's index queue in the map (the write-back of a
`get_mut`-obtained reference). -/
def setDeque (m : List (Nat × List Nat)) (k : Nat) (dq : List Nat) :
    List (Nat × List Nat) :=
  m.map (fun p => if p.1 = k then (p.1, dq) else p)

/-- Append an index to a key's queue, mirroring
`m.entry(key).or_default().push_back(index)`. -/
def pushIndex (m : List (Nat × List Nat)) (k : Nat) (idx : Nat) :
    List (Nat × List Nat) :=
  match dequeOf m k with
  | some dq => setDeque m k (dq ++ [idx])
  | none => m ++ [(k, [idx])]

/-- Mirrors `AppendOnlyMultimap::push_back` (src/multimap.rs, lines 25-29):
the value is stored at index `items.len()` and that index is queued under
the key. -/
def Multimap.pushBack {V : Type} (mm : Multimap V) (k : Nat) (v : V) :
    Multimap V :=
  { items := mm.items ++ [some v], m := pushIndex mm.m k mm.items.length }

/-- Mirrors `RemoveOnlyMultimap::pop_front` (src/multimap.rs, lines 62-65):
pop the front index of the key's queue (propagating `None` when the key is
absent or its queue empty) and take the item stored at that index. -/
def Multimap.popFront {V : Type} (mm : Multimap V) (k : Nat) :
    Option V × Multimap V :=
  match dequeOf mm.m k with
  | none => (none, mm)
  | some [] => (none, mm)
  | some (i :: rest) =>
      let m' := setDeque mm.m k rest
      match mm.items.get? i with
      | some (some v) => (some v, { items := mm.items.set i none, m := m' })
      | _ => (none, { items := mm.items, m := m' })

/-- Mirrors `RemoveOnlyMultimap::iter` (src/multimap.rs, lines 67-69): the
occupied slots in vector order. -/
def Multimap.content {V : Type} (mm : Multimap V) : List V :=
  mm.items.filterMap id

/-- The ascending list of occupied indices currently holding a value with
key `k` (under the key function `keyOf`). -/
def liveIdx {V : Type} (keyOf : V → Nat) : List (Option V) → Nat → List Nat
  | [], _ => []
  | none :: rest, k => (liveIdx keyOf rest k).map Nat.succ
  | some v :: rest, k =>
      if keyOf v = k then 0 :: (liveIdx keyOf rest k).map Nat.succ
      else (liveIdx keyOf rest k).map Nat.succ

/-- Well-formedness of a multimap with respect to a key function: the
map's keys are distinct, every queue in the map is exactly the ascending
list of occupied indices holding that key, and every stored value's key
owns an entry of the map.  This is the invariant the runtime maintains:
pushes append the new largest index under the pushed key and pops remove
the front index while vacating its slot. -/
def Multimap.WF {V : Type} (keyOf : V → Nat) (mm : Multimap V) : Prop :=
  (mm.m.map Prod.fst).Nodup ∧
  (∀ p ∈ mm.m, p.2 = liveIdx keyOf mm.items p.1) ∧
  (∀ v ∈ mm.content, ∃ p ∈ mm.m, p.1 = keyOf v)

instance {V : Type} [DecidableEq V] (keyOf : V → Nat) (mm : Multimap V) :
    Decidable (mm.WF keyOf) :=
  inferInstanceAs (Decidable ((mm.m.map Prod.fst).Nodup ∧
    (∀ p ∈ mm.m, p.2 = liveIdx keyOf mm.items p.1) ∧
    (∀ v ∈ mm.content, ∃ p ∈ mm.m, p.1 = keyOf v)))

/-! ### Component instances and reconciliation (src/render/updater.rs,
src/component/instantiated_component.rs) -/

/-- Abstraction of `InstantiatedComponent`: its key, the `TypeId` of its
component behaviour, its owned hook slot list (abstracted to an opaque
list, empty at construction — `hooks: Default::default()`), the
`first_update` flag, and the props last passed to `update`.  The user
behaviour run inside `update` is outside this core and not modelled. -/
structure Instance where
  key : Nat
  typeId : Nat
  hooks : List Nat
  firstUpdate : Bool
  props : Nat
deriving DecidableEq, Repr

/-- Mirrors `InstantiatedComponent::new`: fresh empty hooks and
`first_update = true`. -/
def Instance.new (k tid : Nat) : Instance :=
  { key := k, typeId := tid, hooks := [], firstUpdate := true, props := 0 }

/-- Mirrors `InstantiatedComponent::update` as far as the reconciliation
claims observe it: the instance receives the new props and, afterwards,
`first_update` is cleared.  Hook slots are owned state and survive. -/
def Instance.update (c : Instance) (p : Nat) : Instance :=
  { c with firstUpdate := false, props := p }

/-- One desired child entry as `update_children` consumes it: its element
key, the `TypeId` of the requested component behaviour, and its props. -/
structure ChildSpec where
  key : Nat
  typeId : Nat
  props : Nat
deriving DecidableEq, Repr

/-- The body of the loop in `ComponentUpdater::update_children`
(src/render/updater.rs, lines 84-100): pop the front instance stored under
the child's key; reuse it if its component type matches the requested type,
otherwise construct a fresh instance; update it with the child's props; and
push it at the back of the used collection. -/
def updateChildrenStep (prev : Multimap Instance) (used : Multimap Instance)
    (child : ChildSpec) : Multimap Instance × Multimap Instance :=
  let popped := prev.popFront child.key
  let comp : Instance :=
    match popped.1 with
    | some c => if c.typeId = child.typeId then c else Instance.new child.key child.typeId
    | none => Instance.new child.key child.typeId
  (popped.2, used.pushBack child.key (comp.update child.props))

/-- Folds `updateChildrenStep` over the desired child list, accumulating
the used collection. -/
def updateChildrenGo (prev : Multimap Instance) (used : Multimap Instance) :
    List ChildSpec → Multimap Instance
  | [] => used
  | child :: rest =>
      let s := updateChildrenStep prev used child
      updateChildrenGo s.1 s.2 rest

/-- Mirrors `ComponentUpdater::update_children` (src/render/updater.rs,
lines 75-104): starting from an empty `AppendOnlyMultimap`, process the
desired children in order and replace the child collection with the used
collection; every previous instance never popped is dropped at that
point. -/
def updateChildren (prev : Multimap Instance) (desired : List ChildSpec) :
    Multimap Instance :=
  updateChildrenGo prev Multimap.empty desired

/-- Removal of the first value with the given key from a plain list: the
list-level behaviour of `pop_front` on a well-formed multimap's content. -/
def popFirstKeyed {V : Type} (keyOf : V → Nat) : List V → Nat → Option V × List V
  | [], _ => (none, [])
  | v :: rest, k =>
      if keyOf v = k then (some v, rest)
      else
        let r := popFirstKeyed keyOf rest k
        (r.1, v :: r.2)

/-- List-level reconciliation: the behaviour of `update_children` on the
content of a well-formed child collection.  Each desired entry reclaims the
first remaining previous instance stored under its key, reuses it when the
behaviour type matches and otherwise constructs a fresh instance, then
updates it with the entry's props. -/
def reconcileList : List Instance → List ChildSpec → List Instance
  | _, [] => []
  | pc, d :: rest =>
      let r := popFirstKeyed Instance.key pc d.key
      let comp : Instance :=
        match r.1 with
        | some c => if c.typeId = d.typeId then c else Instance.new d.key d.typeId
        | none => Instance.new d.key d.typeId
      comp.update d.props :: reconcileList r.2 rest

/-! ### Hook slot sequence (src/hooks/mod.rs) -/

/-- One stored hook object: its concrete runtime type tag and its payload
state. -/
structure HookSlot where
  typeId : Nat
  payload : Nat
deriving DecidableEq, Repr

/-- Mirrors the fields of `Hooks<'a, 'b>` that `use_hook` touches: the
slot vector, the `first_update` flag, and the running index. -/
structure HooksState where
  hooks : List HookSlot
  firstUpdate : Bool
  hookIndex : Nat
deriving DecidableEq, Repr

/-- Mirrors `Hooks::new` as called from `InstantiatedComponent::update`:
the running index starts at zero for every update. -/
def HooksState.startUpdate (hooks : List HookSlot) (first : Bool) : HooksState :=
  { hooks := hooks, firstUpdate := first, hookIndex := 0 }

/-- Mirrors `Hooks::use_hook` (src/hooks/mod.rs, lines 168-183): on the
first update push the constructor's result; read the slot at the running
index and advance the index; downcast the slot to the requested type,
panicking on a mismatch (and likewise when the index is out of range —
both fall into the same `expect`).  The requested type is `reqType`, the
constructor's result is a slot of that type with payload `ctor`. -/
def useHook (s : HooksState) (reqType ctor : Nat) :
    Except String (HookSlot × HooksState) :=
  let hooks1 :=
    if s.firstUpdate then s.hooks ++ [{ typeId := reqType, payload := ctor }]
    else s.hooks
  let idx := s.hookIndex
  let s' : HooksState :=
    { hooks := hooks1, firstUpdate := s.firstUpdate, hookIndex := idx + 1 }
  match hooks1.get? idx with
  | some slot =>
      if slot.typeId = reqType then Except.ok (slot, s')
      else Except.error "Hook type mismatch, ensure the hook is of the correct type"
  | none => Except.error "Hook type mismatch, ensure the hook is of the correct type"

/-! ### Aggregate change polling (src/component/instantiated_component.rs,
src/hooks/mod.rs) -/

/-- A component instance as the change poll observes it: an identifier, the
readiness its own component's `poll_change` reports this cycle, one
readiness per hook, and the child instances.  Identifiers let the theorems
observe which nodes a poll visited. -/
inductive PollTree where
  | node (id : Nat) (ownReady : Bool) (hooks : List (Nat × Bool))
      (children : List PollTree)

/-- Readiness folding of the hook vector, mirroring
`Hook for Vec<Box<dyn AnyHook>>::poll_change` (src/hooks/mod.rs, lines
88-101): every hook is polled, a flag accumulates readiness, and no
iteration stops early.  Returns the readiness and the polled hook ids in
order. -/
def hooksPoll (hooks : List (Nat × Bool)) : Bool × List Nat :=
  hooks.foldl
    (fun acc h => (if h.2 then true else acc.1, acc.2 ++ [h.1]))
    (false, [])

mutual

/-- Mirrors `InstantiatedComponent::poll_change`
(src/component/instantiated_component.rs, lines 153-162): poll the own
component, then the children, then the hooks — all three unconditionally —
and report ready iff any of the three statuses is ready.  Returns the
readiness and the ids of every node polled, in visit order. -/
def instPoll : PollTree → Bool × List Nat
  | PollTree.node id own hooks children =>
      let componentStatus := (own, [id])
      let childrenStatus := componentsPoll children
      let hooksStatus := hooksPoll hooks
      (componentStatus.1 || childrenStatus.1 || hooksStatus.1,
       componentStatus.2 ++ childrenStatus.2 ++ hooksStatus.2)

/-- Mirrors `Components::poll_change`
(src/component/instantiated_component.rs, lines 49-62): poll every child,
accumulating readiness without stopping early. -/
def componentsPoll : List PollTree → Bool × List Nat
  | [] => (false, [])
  | c :: cs =>
      let first := instPoll c
      let rest := componentsPoll cs
      (first.1 || rest.1, first.2 ++ rest.2)

end

mutual

/-- Specification-level aggregate readiness, following the spec's words:
the logical OR of the node's own readiness, each hook's readiness, and each
child's aggregate readiness (spec section 4.5). -/
def specAggregate : PollTree → Bool
  | PollTree.node _ own hooks children =>
      own || hooks.any Prod.snd || specAggregateList children

/-- Aggregate readiness of a list of subtrees: true iff some member's
aggregate readiness is true. -/
def specAggregateList : List PollTree → Bool
  | [] => false
  | c :: cs => specAggregate c || specAggregateList cs

end

mutual

/-- Every node id of the tree in the visit order of `instPoll`: the node
itself, then the children's nodes, then the hook ids. -/
def allNodeIds : PollTree → List Nat
  | PollTree.node id _ hooks children =>
      id :: (allNodeIdsList children ++ hooks.map Prod.fst)

/-- Node ids of a list of subtrees, concatenated in order. -/
def allNodeIdsList : List PollTree → List Nat
  | [] => []
  | c :: cs => allNodeIds c ++ allNodeIdsList cs

end

/-! ### Terminal event fan-out (src/terminal/mod.rs) -/

/-- Mirrors `TerminalEventsInner<T>`: the pending event queue of one
downstream subscriber and its registered waker. -/
structure EventsInner where
  pending : List Nat
  waker : Option Nat
deriving DecidableEq, Repr

/-- A slot of the upstream subscriber list.  Subscribers are held by
`Weak` references; `none` embeds a weak reference whose queue has been
dropped (upgrade fails), `some` a still-live queue. -/
abbrev SubSlot := Option EventsInner

/-- Mirrors the `retain` body in `Terminal::wait` (src/terminal/mod.rs,
lines 132-147) for one event: each live subscriber gets the event pushed at
the back of its queue and its waker, if registered, is taken and woken;
dead subscribers are removed.  Returns the new subscriber list and the
woken wakers in iteration order. -/
def dispatchEvent (subs : List SubSlot) (e : Nat) : List SubSlot × List Nat :=
  match subs with
  | [] => ([], [])
  | none :: rest => dispatchEvent rest e
  | some inner :: rest =>
      let rest' := dispatchEvent rest e
      (some { pending := inner.pending ++ [e], waker := none } :: rest'.1,
       inner.waker.toList ++ rest'.2)

/-- One iteration of the loop in `Terminal::wait` (src/terminal/mod.rs,
lines 124-148): when the received event is the interrupt (Ctrl+C) the loop
returns without dispatching; otherwise the event is fanned out to the
subscribers.  Returns the subscriber list, the woken wakers, and whether
the loop terminated. -/
def terminalWaitStep (isCtrlC : Nat → Bool) (subs : List SubSlot) (e : Nat) :
    List SubSlot × List Nat × Bool :=
  if isCtrlC e then (subs, [], true)
  else
    let d := dispatchEvent subs e
    (d.1, d.2, false)

/-- Mirrors `Stream for TerminalEvents::poll_next` (src/terminal/mod.rs,
lines 44-58): pop the front pending event if there is one, otherwise
register the waker and stay pending.  `none` as first component embeds
`Poll::Pending`. -/
def eventsPollNext (inner : EventsInner) (w : Nat) :
    Option Nat × EventsInner :=
  match inner.pending with
  | e :: rest => (some e, { inner with pending := rest })
  | [] => (none, { inner with waker := some w })

/-- Concrete instance reused across the sample reconciliation below. -/
def instOldW : Instance :=
  { key := 1, typeId := 0, hooks := [5], firstUpdate := false, props := 0 }

/-- Concrete instance whose key disappears in the sample reconciliation. -/
def instStaleW : Instance :=
  { key := 9, typeId := 2, hooks := [6], firstUpdate := false, props := 0 }

/-- Sample previous child collection: the two instances above, stored
under their keys. -/
def prevW : Multimap Instance :=
  (Multimap.empty.pushBack 1 instOldW).pushBack 9 instStaleW

/-- Sample desired child list: key 1 reappears with the same behaviour
type, key 2 is new, key 9 is gone. -/
def desiredW : List ChildSpec :=
  [{ key := 1, typeId := 0, props := 7 }, { key := 2, typeId := 3, props := 8 }]

/-! ## Theorems -/

/-- C1: releasing a write-capable borrow of a State cell that was never
mutably dereferenced leaves the changed flag unset and wakes no waiter, and
a subsequent poll_change returns Pending; releasing a borrow that was
mutably dereferenced sets the changed flag and wakes exactly the one
registered waiter, clearing that registration; read never marks the cell
changed. -/
theorem c1_state_write_only_on_mutation {T : Type} (v : StateValue T)
    (w : Nat) (x : T) (hnc : v.is_changed = false) :
    (StateMutRef.release { inner := v, is_deref_mut := false } = (v, [])) ∧
    ((useStatePollChange (CellState.free v) w).1 = Poll.pending) ∧
    (∀ wk, v.waker = some wk →
      (StateMutRef.assign { inner := v, is_deref_mut := false } x).release
        = ({ value := x, waker := none, is_changed := true }, [wk])) ∧
    (State.readOp (CellState.free v) = Except.ok (v.value, CellState.free v)) := by
  refine ⟨?_, ?_, ?_, ?_⟩
  · simp [StateMutRef.release]
  · simp [useStatePollChange, hnc]
  · intro wk hwk
    simp [StateMutRef.assign, StateMutRef.release, hwk]
  · rfl

/-- Witness for C1 at the concrete cell holding 0 with waker 7
registered. -/
theorem c1_witness :
    (StateMutRef.release
        { inner := { value := 0, waker := some 7, is_changed := false },
          is_deref_mut := false }
      = ({ value := 0, waker := some 7, is_changed := false }, [])) ∧
    ((useStatePollChange
        (CellState.free { value := 0, waker := some 7, is_changed := false }) 1).1
      = Poll.pending) ∧
    ((StateMutRef.assign
        { inner := { value := 0, waker := some 7, is_changed := false },
          is_deref_mut := false } 5).release
      = ({ value := 5, waker := none, is_changed := true }, [7])) ∧
    (State.readOp
        (CellState.free { value := 0, waker := some 7, is_changed := false })
      = Except.ok (0, CellState.free
          { value := 0, waker := some 7, is_changed := false })) := by
  have h := c1_state_write_only_on_mutation
    (v := { value := 0, waker := some 7, is_changed := false }) 1 5 rfl
  exact ⟨h.1, h.2.1, h.2.2.1 7 rfl, h.2.2.2⟩

/-- C4 counterexample: calling set on a State handle whose owning slot has
been torn down returns normally, leaves the cell unchanged and wakes
nobody — a silent no-op, not a loud use-after-release failure as the claim
demands. -/
theorem c4_counterexample :
    State.setOp (CellState.dropped : CellState Nat) 5
      = (CellState.dropped, []) := rfl

/-- C4 as amended: read and write on a torn-down State or Store slot fail
loudly with the use-after-release panic message, while set and the
compound assignment operators silently do nothing. -/
theorem c4_amended_use_after_release {T : Type} [Add T] (x : T) :
    (State.readOp (CellState.dropped : CellState T)
      = Except.error "attempt to read state after owner was dropped") ∧
    (State.writeOp (CellState.dropped : CellState T)
      = Except.error "attempt to write state after owner was dropped") ∧
    (State.setOp (CellState.dropped : CellState T) x = (CellState.dropped, [])) ∧
    (State.addAssignOp (CellState.dropped : CellState T) x
      = (CellState.dropped, [])) ∧
    (StoreState.readOp (StoreCell.dropped : StoreCell T)
      = Except.error "attempt to read state after owner was dropped") ∧
    (StoreState.writeOp (StoreCell.dropped : StoreCell T)
      = Except.error "attempt to write state after owner was dropped") ∧
    (StoreState.setOp (StoreCell.dropped : StoreCell T) x
      = (StoreCell.dropped, [])) :=
  ⟨rfl, rfl, rfl, rfl, rfl, rfl, rfl⟩

/-- C5 counterexample: releasing a mutably dereferenced write borrow of a
Store cell holding the two per-consumer wakers 10 and 11 wakes both but
leaves the waker map intact — it is not cleared at release time, contrary
to the claim's "invoked and then cleared". -/
theorem c5_counterexample :
    (StoreStateMut.release
        { inner := { value := (0 : Nat), is_changed := false,
                     wakers := [(0, 10), (1, 11)] },
          is_deref_mut := true })
      = ({ value := 0, is_changed := true, wakers := [(0, 10), (1, 11)] },
         [10, 11]) ∧
    ¬ (StoreStateMut.release
        { inner := { value := (0 : Nat), is_changed := false,
                     wakers := [(0, 10), (1, 11)] },
          is_deref_mut := true }).1.wakers = [] := by
  constructor
  · rfl
  · intro h
    simp [StoreStateMut.release] at h

/-- C5 as amended: releasing a mutably dereferenced write borrow of a
Store cell marks it changed and wakes every stored per-consumer waker by
reference, retaining the waker map; the map (and the changed flag) is
cleared by the first consumer whose subsequent poll observes the change,
while a poll that observes no change registers that consumer's waker. -/
theorem c5_store_release_and_poll {T : Type} (v : StoreValue T) (x : T)
    (key w : Nat) :
    ((StoreStateMut.assign { inner := v, is_deref_mut := false } x).release
      = ({ value := x, is_changed := true, wakers := v.wakers },
         v.wakers.map Prod.snd)) ∧
    (v.is_changed = true →
      useStorePollChange (StoreCell.free v) key w
        = (Poll.ready, StoreCell.free { v with is_changed := false, wakers := [] })) ∧
    (v.is_changed = false →
      useStorePollChange (StoreCell.free v) key w
        = (Poll.pending,
           StoreCell.free { v with wakers := insertWaker key w v.wakers })) := by
  refine ⟨?_, ?_, ?_⟩
  · simp [StoreStateMut.assign, StoreStateMut.release]
  · intro h; simp [useStorePollChange, h]
  · intro h; simp [useStorePollChange, h]

/-- Witness for C5 as amended, at a cell with two registered consumers. -/
theorem c5_witness :
    ((StoreStateMut.assign
        { inner := { value := (0 : Nat), is_changed := false,
                     wakers := [(0, 10), (1, 11)] },
          is_deref_mut := false } 5).release
      = ({ value := 5, is_changed := true, wakers := [(0, 10), (1, 11)] },
         [10, 11])) ∧
    (useStorePollChange
        (StoreCell.free { value := (5 : Nat), is_changed := true,
                          wakers := [(0, 10), (1, 11)] }) 0 12
      = (Poll.ready, StoreCell.free
          { value := 5, is_changed := false, wakers := [] })) ∧
    (useStorePollChange
        (StoreCell.free { value := (5 : Nat), is_changed := false,
                          wakers := [] }) 0 12
      = (Poll.pending, StoreCell.free
          { value := 5, is_changed := false, wakers := [(0, 12)] })) := by
  have h1 := c5_store_release_and_poll
    (v := { value := (0 : Nat), is_changed := false,
            wakers := [(0, 10), (1, 11)] }) 5 0 12
  have h2 := c5_store_release_and_poll
    (v := { value := (5 : Nat), is_changed := true,
            wakers := [(0, 10), (1, 11)] }) 5 0 12
  have h3 := c5_store_release_and_poll
    (v := { value := (5 : Nat), is_changed := false, wakers := [] }) 5 0 12
  exact ⟨h1.1, h2.2.1 rfl, h3.2.2 rfl⟩

/-- C9: on a non-interrupt event, the fan-out appends the event at the
back of every still-live subscriber queue, wakes and clears each live
subscriber's registered waker, and removes every dead subscriber from the
list in that same iteration; a buffered event is delivered at the front by
the subscriber's next poll, and a poll of an empty queue registers the
caller's waker. -/
theorem c9_event_fanout (subs : List SubSlot) (e : Nat) (isC : Nat → Bool)
    (hnc : isC e = false) :
    (terminalWaitStep isC subs e
      = (subs.filterMap (fun s =>
           s.map (fun inner =>
             (some { pending := inner.pending ++ [e], waker := none } : SubSlot))),
         subs.filterMap (fun s => s.bind EventsInner.waker),
         false)) ∧
    (∀ x rest wk w', eventsPollNext { pending := x :: rest, waker := wk } w'
      = (some x, { pending := rest, waker := wk })) ∧
    (∀ wk w', eventsPollNext { pending := [], waker := wk } w'
      = (none, { pending := [], waker := some w' })) := by
  refine ⟨?_, fun x rest wk w' => rfl, fun wk w' => rfl⟩
  have hd : ∀ l : List SubSlot, dispatchEvent l e
      = (l.filterMap (fun s =>
           s.map (fun inner =>
             (some { pending := inner.pending ++ [e], waker := none } : SubSlot))),
         l.filterMap (fun s => s.bind EventsInner.waker)) := by
    intro l
    induction l with
    | nil => rfl
    | cons hd tl ih =>
        cases hd with
        | none => simpa [dispatchEvent] using ih
        | some inner =>
            cases hw : inner.waker with
            | none =>
                simp [dispatchEvent, ih, Option.toList, List.filterMap_cons, hw]
            | some a =>
                simp [dispatchEvent, ih, Option.toList, List.filterMap_cons, hw]
  simp [terminalWaitStep, hnc, hd]

/-- Witness for C9: one live subscriber with a registered waker, one dead
slot, and one live subscriber without a waker. -/
theorem c9_witness :
    (terminalWaitStep (fun n => n == 0)
        [some { pending := [], waker := some 3 }, none,
         some { pending := [9], waker := none }] 5
      = ([some { pending := [5], waker := none },
          some { pending := [9, 5], waker := none }],
         [3], false)) ∧
    (eventsPollNext { pending := [5], waker := none } 4
      = (some 5, { pending := [], waker := none })) := by
  have h := c9_event_fanout
    [some { pending := [], waker := some 3 }, none,
     some { pending := [9], waker := none }] 5 (fun n => n == 0) rfl
  exact ⟨h.1, h.2.1 5 [] none 4⟩

/-- C10: try_read on a State or Store handle terminates whenever no
write-capable borrow of the cell is outstanding, returning the current
value when the slot is live and nothing when it has been released; while
the cell is mutably borrowed (and not dropped), the retry loop never
exits. -/
theorem c10_try_read_total {T : Type} (st : CellState T) (sc : StoreCell T)
    (h : ∀ v, st ≠ CellState.borrowedMut v)
    (hs : ∀ v, sc ≠ StoreCell.borrowedMut v) :
    (∀ fuel, State.tryReadLoop (fuel + 1) st
      = some (match st with
              | CellState.free v => some v.value
              | _ => none)) ∧
    (∀ (v : StateValue T) fuel,
      State.tryReadLoop fuel (CellState.borrowedMut v) = none) ∧
    (∀ fuel, StoreState.tryReadLoop (fuel + 1) sc
      = some (match sc with
              | StoreCell.free v => some v.value
              | _ => none)) ∧
    (∀ (v : StoreValue T) fuel,
      StoreState.tryReadLoop fuel (StoreCell.borrowedMut v) = none) := by
  refine ⟨?_, ?_, ?_, ?_⟩
  · intro fuel
    cases st with
    | dropped => rfl
    | borrowedMut v => exact absurd rfl (h v)
    | free v => rfl
  · intro v fuel
    induction fuel with
    | zero => rfl
    | succ n ih =>
        simpa [State.tryReadLoop, tryReadCell, tryWriteCell] using ih
  · intro fuel
    cases sc with
    | dropped => rfl
    | borrowedMut v => exact absurd rfl (hs v)
    | free v => rfl
  · intro v fuel
    induction fuel with
    | zero => rfl
    | succ n ih =>
        simpa [StoreState.tryReadLoop, tryReadStore, tryWriteStore] using ih

/-- Witness for C10 at a live State cell holding 42, a released Store
slot, and borrowed cells of each kind. -/
theorem c10_witness :
    (State.tryReadLoop 1
        (CellState.free { value := 42, waker := none, is_changed := false })
      = some (some 42)) ∧
    (State.tryReadLoop 3
        (CellState.borrowedMut { value := 42, waker := none, is_changed := false })
      = none) ∧
    (StoreState.tryReadLoop 1 (StoreCell.dropped : StoreCell Nat)
      = some none) ∧
    (StoreState.tryReadLoop 3
        (StoreCell.borrowedMut { value := 0, is_changed := false, wakers := [] })
      = none) := by
  have h := c10_try_read_total
    (CellState.free { value := 42, waker := none, is_changed := false })
    (StoreCell.dropped : StoreCell Nat)
    (fun v hv => by cases hv) (fun v hv => by cases hv)
  exact ⟨h.1 0, h.2.1 _ 3, h.2.2.1 0, h.2.2.2 _ 3⟩

/-- C6: a context entry pushed for a subtree's evaluation is visible to
lookups made during that evaluation, lookup returns the most recently
pushed entry of the requested type (innermost wins), and the entry is
popped again before control returns to the caller. -/
theorem c6_context_scoping {A : Type} (stack : List CtxEntry) (ctx e : CtxEntry)
    (f : List CtxEntry → A) (t : Nat) :
    ((withContext stack (some ctx) f).2 = stack) ∧
    ((withContext stack none f).2 = stack) ∧
    ((withContext stack (some ctx) f).1 = f (stack ++ [ctx])) ∧
    (getContext (stack ++ [e]) t
      = if e.typeId = t then some e.value else getContext stack t) := by
  refine ⟨?_, rfl, rfl, ?_⟩
  · simp [withContext]
  · by_cases h : e.typeId = t
    · simp [getContext, List.find?_cons, h]
    · simp [getContext, List.find?_cons, h]

/-- C3: the hook registration call appends the constructor's result on the
instance's first-ever update, always hands back the slot stored at the
current running index and advances the index by one, the running index is
reset to zero at the start of each update, and a call whose requested
concrete type differs from the stored slot's type faults with the hook
type mismatch panic. -/
theorem c3_use_hook_contract (s : HooksState) (h0 : List HookSlot)
    (first : Bool) (t c : Nat) :
    ((HooksState.startUpdate h0 first).hookIndex = 0 ∧
     (HooksState.startUpdate h0 first).hooks = h0) ∧
    (s.firstUpdate = true → s.hookIndex = s.hooks.length →
      useHook s t c = Except.ok ({ typeId := t, payload := c },
        { hooks := s.hooks ++ [{ typeId := t, payload := c }],
          firstUpdate := true, hookIndex := s.hookIndex + 1 })) ∧
    (∀ slot s', useHook s t c = Except.ok (slot, s') →
      s'.hooks[s.hookIndex]? = some slot ∧
      s'.hookIndex = s.hookIndex + 1 ∧
      slot.typeId = t ∧
      (s.firstUpdate = false → s.hooks[s.hookIndex]? = some slot)) ∧
    (∀ slot, s.firstUpdate = false → s.hooks[s.hookIndex]? = some slot →
      slot.typeId ≠ t →
      useHook s t c
        = Except.error "Hook type mismatch, ensure the hook is of the correct type") := by
  refine ⟨⟨rfl, rfl⟩, ?_, ?_, ?_⟩
  · intro hf hi
    simp [useHook, hf, hi, List.getElem?_concat_length]
  · intro slot s' h
    simp only [useHook] at h
    split at h
    next slot0 hg =>
      split at h
      next ht =>
        cases h
        rw [List.get?_eq_getElem?] at hg
        refine ⟨hg, rfl, ht, ?_⟩
        intro hf
        simpa [hf] using hg
      next ht => cases h
    next hg => cases h
  · intro slot hf hg hne
    simp [useHook, hf, hg, hne]

/-- Witness for C3: a first-update call appending a hook of type 3, a
mismatching call requesting type 4 at a slot of type 3, and the index
reset of a fresh update. -/
theorem c3_witness :
    (useHook { hooks := [], firstUpdate := true, hookIndex := 0 } 3 9
      = Except.ok ({ typeId := 3, payload := 9 },
          { hooks := [{ typeId := 3, payload := 9 }],
            firstUpdate := true, hookIndex := 1 })) ∧
    (useHook { hooks := [{ typeId := 3, payload := 9 }],
               firstUpdate := false, hookIndex := 0 } 4 0
      = Except.error "Hook type mismatch, ensure the hook is of the correct type") ∧
    ((HooksState.startUpdate [{ typeId := 3, payload := 9 }] false).hookIndex = 0) := by
  have h1 := c3_use_hook_contract ⟨[], true, 0⟩ [] true 3 9
  have h2 := c3_use_hook_contract ⟨[⟨3, 9⟩], false, 0⟩ [⟨3, 9⟩] false 4 0
  exact ⟨h1.2.1 rfl rfl, h2.2.2.2 ⟨3, 9⟩ rfl rfl (by decide), h2.1.1⟩

/-- Readiness folding of the hook vector equals the any-OR of the hook
readiness flags, visiting every hook in order. -/
theorem hooksPoll_spec (hooks : List (Nat × Bool)) :
    hooksPoll hooks = (hooks.any Prod.snd, hooks.map Prod.fst) := by
  have hgen : ∀ (hs : List (Nat × Bool)) (b : Bool) (acc : List Nat),
      hs.foldl (fun a h => (if h.2 then true else a.1, a.2 ++ [h.1])) (b, acc)
        = (b || hs.any Prod.snd, acc ++ hs.map Prod.fst) := by
    intro hs
    induction hs with
    | nil => intro b acc; simp
    | cons h tl ih =>
        intro b acc
        rw [List.foldl_cons]
        show tl.foldl (fun a h => (if h.2 = true then true else a.1, a.2 ++ [h.1]))
            (if h.2 = true then true else b, acc ++ [h.1]) = _
        rw [ih]
        refine congrArg₂ Prod.mk ?_ ?_
        · rw [List.any_cons]
          cases hc : h.2 <;> simp [hc]
        · simp
  simpa [hooksPoll] using hgen hooks false []

mutual

/-- The implementation's change poll on one instance computes the
specification aggregate and visits every node. -/
theorem instPoll_spec : ∀ t : PollTree, instPoll t = (specAggregate t, allNodeIds t)
  | PollTree.node id own hooks children => by
      simp only [instPoll, specAggregate, allNodeIds,
        componentsPoll_spec children, hooksPoll_spec]
      refine congrArg₂ Prod.mk ?_ rfl
      cases own <;> cases hooks.any Prod.snd <;>
        cases specAggregateList children <;> rfl

/-- The implementation's change poll on a child list computes the
specification aggregate of the list and visits every node. -/
theorem componentsPoll_spec :
    ∀ ts : List PollTree, componentsPoll ts = (specAggregateList ts, allNodeIdsList ts)
  | [] => rfl
  | c :: cs => by
      simp [componentsPoll, instPoll_spec c, componentsPoll_spec cs,
        specAggregateList, allNodeIdsList]

end

/-- C8: the aggregate change poll of a component instance is Ready exactly
when the logical OR of its own component's readiness, each hook's
readiness, and each child's aggregate readiness is true, and the poll
visits every component, hook, and child afresh with no short-circuiting. -/
theorem c8_aggregate_poll_is_or (t : PollTree) :
    (instPoll t).1 = specAggregate t ∧ (instPoll t).2 = allNodeIds t := by
  simp [instPoll_spec t]

/-- A value removed by `popFirstKeyed` carries the requested key. -/
theorem popFirstKeyed_fst_key {V : Type} (keyOf : V → Nat) (l : List V) (k : Nat)
    (v : V) (h : (popFirstKeyed keyOf l k).1 = some v) : keyOf v = k := by
  induction l with
  | nil => simp [popFirstKeyed] at h
  | cons w rest ih =>
      by_cases hw : keyOf w = k
      · simp [popFirstKeyed, hw] at h
        rw [← h]; exact hw
      · simp [popFirstKeyed, hw] at h
        exact ih h

/-- The value removed by `popFirstKeyed` is the first one the key finds. -/
theorem popFirstKeyed_fst_find {V : Type} (keyOf : V → Nat) (l : List V) (k : Nat) :
    (popFirstKeyed keyOf l k).1 = l.find? (fun v => keyOf v = k) := by
  induction l with
  | nil => rfl
  | cons w rest ih =>
      by_cases hw : keyOf w = k
      · simp [popFirstKeyed, hw, List.find?_cons]
      · simp [popFirstKeyed, hw, List.find?_cons, ih]

/-- Removing a value of one key leaves lookups of any other key alone. -/
theorem find?_popFirstKeyed_ne {V : Type} (keyOf : V → Nat) (l : List V)
    (k k' : Nat) (hne : k' ≠ k) :
    ((popFirstKeyed keyOf l k).2).find? (fun v => keyOf v = k')
      = l.find? (fun v => keyOf v = k') := by
  induction l with
  | nil => rfl
  | cons w rest ih =>
      by_cases hw : keyOf w = k
      · simp [popFirstKeyed, hw, List.find?_cons, Ne.symm hne]
      · by_cases hw' : keyOf w = k'
        · simp [popFirstKeyed, hw, List.find?_cons, hw', hne]
        · simp [popFirstKeyed, hw, List.find?_cons, hw', hne, ih]

/-- When no occupied slot holds the key, `popFirstKeyed` on the content
finds nothing and returns the content unchanged. -/
theorem liveIdx_nil_pop {V : Type} (keyOf : V → Nat) (items : List (Option V))
    (k : Nat) (h : liveIdx keyOf items k = []) :
    popFirstKeyed keyOf (items.filterMap id) k = (none, items.filterMap id) := by
  induction items with
  | nil => rfl
  | cons o rest ih =>
      cases o with
      | none =>
          rw [liveIdx, List.map_eq_nil_iff] at h
          simpa [List.filterMap_cons] using ih h
      | some v =>
          by_cases hv : keyOf v = k
          · rw [liveIdx, if_pos hv] at h
            cases h
          · rw [liveIdx, if_neg hv, List.map_eq_nil_iff] at h
            have hr := ih h
            simp [List.filterMap_cons, popFirstKeyed, hv, hr]

/-- A list of slots none of which holds the key has no live index for
it. -/
theorem liveIdx_nil_of_no_key {V : Type} (keyOf : V → Nat)
    (items : List (Option V)) (k : Nat)
    (h : ∀ v, some v ∈ items → keyOf v ≠ k) :
    liveIdx keyOf items k = [] := by
  induction items with
  | nil => rfl
  | cons o rest ih =>
      cases o with
      | none =>
          rw [liveIdx, ih (fun v hv => h v (List.mem_cons_of_mem _ hv))]
          rfl
      | some v =>
          have hv : ¬ keyOf v = k := h v (List.mem_cons_self _ _)
          rw [liveIdx, if_neg hv, ih (fun w hw => h w (List.mem_cons_of_mem _ hw))]
          rfl

/-- Popping the front live index of a key: the slot at that index holds
the first content value with that key; vacating it removes exactly that
value from the content, removes the front of the key's live index list,
and leaves every other key's live indices untouched. -/
theorem liveIdx_head_pop {V : Type} (keyOf : V → Nat) :
    ∀ (items : List (Option V)) (k i : Nat) (rest : List Nat),
    liveIdx keyOf items k = i :: rest →
    ∃ v, items[i]? = some (some v) ∧ keyOf v = k ∧
      popFirstKeyed keyOf (items.filterMap id) k
        = (some v, (items.set i none).filterMap id) ∧
      liveIdx keyOf (items.set i none) k = rest ∧
      (∀ k', k' ≠ k → liveIdx keyOf (items.set i none) k'
        = liveIdx keyOf items k') := by
  intro items
  induction items with
  | nil => intro k i rest h; cases h
  | cons o tail ih =>
      intro k i rest h
      cases o with
      | none =>
          rw [liveIdx] at h
          cases htail : liveIdx keyOf tail k with
          | nil => rw [htail] at h; cases h
          | cons j rest0 =>
              rw [htail, List.map_cons] at h
              injection h with h1 h2
              obtain ⟨v, hget, hkey, hpop, hliv, hoth⟩ := ih k j rest0 htail
              refine ⟨v, ?_, hkey, ?_, ?_, ?_⟩
              · rw [← h1]; simpa using hget
              · rw [← h1]
                simpa [List.filterMap_cons] using hpop
              · rw [← h1]
                show liveIdx keyOf (none :: tail.set j none) k = rest
                rw [liveIdx, hliv, h2]
              · intro k' hk'
                rw [← h1]
                show liveIdx keyOf (none :: tail.set j none) k'
                  = liveIdx keyOf (none :: tail) k'
                rw [liveIdx, liveIdx, hoth k' hk']
      | some w =>
          rw [liveIdx] at h
          by_cases hw : keyOf w = k
          · rw [if_pos hw] at h
            injection h with h1 h2
            refine ⟨w, ?_, hw, ?_, ?_, ?_⟩
            · rw [← h1]; simp
            · rw [← h1]
              simp [List.filterMap_cons, popFirstKeyed, hw]
            · rw [← h1]
              show liveIdx keyOf (none :: tail) k = rest
              rw [liveIdx, h2]
            · intro k' hk'
              rw [← h1]
              have hwk' : ¬ keyOf w = k' := by
                rw [hw]; exact fun hh => hk' hh.symm
              show liveIdx keyOf (none :: tail) k'
                = liveIdx keyOf (some w :: tail) k'
              rw [liveIdx, liveIdx, if_neg hwk']
          · rw [if_neg hw] at h
            cases htail : liveIdx keyOf tail k with
            | nil => rw [htail] at h; cases h
            | cons j rest0 =>
                rw [htail, List.map_cons] at h
                injection h with h1 h2
                obtain ⟨v, hget, hkey, hpop, hliv, hoth⟩ := ih k j rest0 htail
                refine ⟨v, ?_, hkey, ?_, ?_, ?_⟩
                · rw [← h1]; simpa using hget
                · rw [← h1]
                  show popFirstKeyed keyOf ((some w :: tail).filterMap id) k
                    = (some v, ((some w :: tail.set j none)).filterMap id)
                  simp [List.filterMap_cons, popFirstKeyed, hw, hpop]
                · rw [← h1]
                  show liveIdx keyOf (some w :: tail.set j none) k = rest
                  rw [liveIdx, if_neg hw, hliv, h2]
                · intro k' hk'
                  rw [← h1]
                  show liveIdx keyOf (some w :: tail.set j none) k'
                    = liveIdx keyOf (some w :: tail) k'
                  by_cases hw' : keyOf w = k'
                  · rw [liveIdx, if_pos hw', liveIdx, if_pos hw', hoth k' hk']
                  · rw [liveIdx, if_neg hw', liveIdx, if_neg hw', hoth k' hk']

/-- Appending one occupied slot adds its index to exactly its own key's
live indices, at the back. -/
theorem liveIdx_append {V : Type} (keyOf : V → Nat) (items : List (Option V))
    (v : V) (k : Nat) :
    liveIdx keyOf (items ++ [some v]) k
      = liveIdx keyOf items k
        ++ (if keyOf v = k then [items.length] else []) := by
  induction items with
  | nil => by_cases hv : keyOf v = k <;> simp [liveIdx, hv]
  | cons o rest ih =>
      cases o with
      | none =>
          show liveIdx keyOf (none :: (rest ++ [some v])) k = _
          rw [liveIdx, ih, List.map_append, liveIdx]
          by_cases hv : keyOf v = k <;> simp [hv, List.length_cons]
      | some w =>
          show liveIdx keyOf (some w :: (rest ++ [some v])) k = _
          rw [liveIdx, ih, List.map_append, liveIdx]
          by_cases hw : keyOf w = k <;>
            by_cases hv : keyOf v = k <;>
              simp [hw, hv, List.length_cons]

/-- Lookup by key after a queue replacement: the map's key set is
unchanged. -/
theorem setDeque_map_fst (m : List (Nat × List Nat)) (k : Nat) (dq : List Nat) :
    (setDeque m k dq).map Prod.fst = m.map Prod.fst := by
  induction m with
  | nil => rfl
  | cons p rest ih =>
      by_cases hp : p.1 = k <;> simp [setDeque, hp] <;>
        simpa [setDeque] using ih

/-- Members of the queue-replaced map come from members of the original
map, with only the requested key's queue changed. -/
theorem mem_setDeque {m : List (Nat × List Nat)} {k : Nat} {dq : List Nat}
    {q : Nat × List Nat} (h : q ∈ setDeque m k dq) :
    ∃ p ∈ m, q = if p.1 = k then (p.1, dq) else p := by
  obtain ⟨p, hp, hq⟩ := List.mem_map.mp h
  exact ⟨p, hp, hq.symm⟩

/-- A successful key lookup exhibits a map entry with that key. -/
theorem dequeOf_some_mem {m : List (Nat × List Nat)} {k : Nat} {dq : List Nat}
    (h : dequeOf m k = some dq) : (k, dq) ∈ m := by
  unfold dequeOf at h
  cases hf : m.find? (fun p => p.1 = k) with
  | none => rw [hf] at h; cases h
  | some p =>
      rw [hf] at h
      injection h with h1
      have hmem := List.mem_of_find?_eq_some hf
      have hk : p.1 = k := by simpa using List.find?_some hf
      have : p = (k, dq) := by
        cases p with
        | mk a b => simp at h1 hk; rw [hk, h1]
      rw [← this]; exact hmem

/-- A failed key lookup means no map entry carries that key. -/
theorem dequeOf_none {m : List (Nat × List Nat)} {k : Nat}
    (h : dequeOf m k = none) : ∀ p ∈ m, p.1 ≠ k := by
  intro p hp
  unfold dequeOf at h
  cases hf : m.find? (fun q => q.1 = k) with
  | none =>
      have := List.find?_eq_none.mp hf p hp
      simpa using this
  | some q => rw [hf] at h; cases h

/-- The key set after `pushIndex` contains the old keys. -/
theorem pushIndex_keys_old (m : List (Nat × List Nat)) (k idx : Nat)
    {p : Nat × List Nat} (hp : p ∈ m) :
    ∃ p' ∈ pushIndex m k idx, p'.1 = p.1 := by
  unfold pushIndex
  cases hdq : dequeOf m k with
  | none => exact ⟨p, List.mem_append_left _ hp, rfl⟩
  | some dq =>
      refine ⟨if p.1 = k then (p.1, dq ++ [idx]) else p, ?_, ?_⟩
      · exact List.mem_map.mpr ⟨p, hp, rfl⟩
      · by_cases hk : p.1 = k <;> simp [hk]

/-- The key set after `pushIndex` contains the pushed key. -/
theorem pushIndex_keys_new (m : List (Nat × List Nat)) (k idx : Nat) :
    ∃ p' ∈ pushIndex m k idx, p'.1 = k := by
  unfold pushIndex
  cases hdq : dequeOf m k with
  | none => exact ⟨(k, [idx]), List.mem_append_right _ (List.mem_singleton.mpr rfl), rfl⟩
  | some dq =>
      have hmem := dequeOf_some_mem hdq
      refine ⟨(k, dq ++ [idx]), ?_, rfl⟩
      exact List.mem_map.mpr ⟨(k, dq), hmem, by simp⟩

/-- Content membership is occupancy of some slot. -/
theorem mem_content {V : Type} {mm : Multimap V} {v : V} :
    v ∈ mm.content ↔ some v ∈ mm.items := by
  simp [Multimap.content, List.mem_filterMap]

/-- The empty multimap is well formed. -/
theorem WF_empty {V : Type} (keyOf : V → Nat) :
    (Multimap.empty : Multimap V).WF keyOf := by
  refine ⟨by simp [Multimap.empty], ?_, ?_⟩
  · intro p hp; cases hp
  · intro v hv; cases hv

/-- Pushing appends the value to the content. -/
theorem content_pushBack {V : Type} (mm : Multimap V) (k : Nat) (v : V) :
    (mm.pushBack k v).content = mm.content ++ [v] := by
  simp [Multimap.pushBack, Multimap.content, List.filterMap_append]

/-- Pushing a value under its own key preserves well-formedness. -/
theorem WF_pushBack {V : Type} (keyOf : V → Nat) (mm : Multimap V) (k : Nat)
    (v : V) (hwf : mm.WF keyOf) (hkv : keyOf v = k) :
    (mm.pushBack k v).WF keyOf := by
  obtain ⟨h1, h2, h3⟩ := hwf
  have hkeyless : dequeOf mm.m k = none → liveIdx keyOf mm.items k = [] := by
    intro hdq
    refine liveIdx_nil_of_no_key keyOf mm.items k ?_
    intro w hw hwk
    obtain ⟨p, hp, hpk⟩ := h3 w (mem_content.mpr hw)
    exact dequeOf_none hdq p hp (hpk.trans hwk)
  refine ⟨?_, ?_, ?_⟩
  · show ((pushIndex mm.m k mm.items.length).map Prod.fst).Nodup
    unfold pushIndex
    cases hdq : dequeOf mm.m k with
    | none =>
        have hnotin : k ∉ mm.m.map Prod.fst := by
          intro hk
          obtain ⟨p, hp, hpk⟩ := List.mem_map.mp hk
          exact dequeOf_none hdq p hp hpk
        simp [List.nodup_append, h1, hnotin]
    | some dq => rw [setDeque_map_fst]; exact h1
  · intro p' hp'
    show p'.2 = liveIdx keyOf (mm.items ++ [some v]) p'.1
    simp only [Multimap.pushBack] at hp'
    unfold pushIndex at hp'
    cases hdq : dequeOf mm.m k with
    | none =>
        rw [hdq] at hp'
        rcases List.mem_append.mp hp' with hold | hnew
        · have hne : p'.1 ≠ k := dequeOf_none hdq p' hold
          rw [liveIdx_append, if_neg (fun hh => hne (hh.symm.trans hkv))]
          simpa using h2 p' hold
        · have hp'' : p' = (k, [mm.items.length]) := by simpa using hnew
          rw [hp'']
          rw [liveIdx_append]
          rw [hkeyless hdq]
          simp [hkv]
    | some dq =>
        rw [hdq] at hp'
        obtain ⟨p, hp, hpe⟩ := mem_setDeque hp'
        have hdqv : dq = liveIdx keyOf mm.items k := by
          have := h2 (k, dq) (dequeOf_some_mem hdq)
          simpa using this
        by_cases hpk : p.1 = k
        · rw [if_pos hpk] at hpe
          rw [hpe]
          show dq ++ [mm.items.length] = liveIdx keyOf (mm.items ++ [some v]) p.1
          rw [hpk, liveIdx_append, if_pos hkv, hdqv]
        · rw [if_neg hpk] at hpe
          rw [hpe]
          rw [liveIdx_append, if_neg (fun hh => hpk (hh.symm.trans hkv))]
          simpa using h2 p hp
  · intro w hw
    rw [content_pushBack] at hw
    rcases List.mem_append.mp hw with hold | hnew
    · obtain ⟨p, hp, hpk⟩ := h3 w hold
      obtain ⟨p', hp', hp'k⟩ := pushIndex_keys_old mm.m k mm.items.length hp
      exact ⟨p', hp', hp'k.trans hpk⟩
    · have hwv : w = v := by simpa using hnew
      obtain ⟨p', hp', hp'k⟩ := pushIndex_keys_new mm.m k mm.items.length
      exact ⟨p', hp', by rw [hp'k, hwv, hkv]⟩

/-- Keys survive a queue replacement. -/
theorem setDeque_keys {m : List (Nat × List Nat)} {k : Nat} {dq : List Nat}
    {p : Nat × List Nat} (hp : p ∈ m) :
    ∃ p' ∈ setDeque m k dq, p'.1 = p.1 := by
  refine ⟨if p.1 = k then (p.1, dq) else p, ?_, ?_⟩
  · exact List.mem_map.mpr ⟨p, hp, rfl⟩
  · by_cases hk : p.1 = k <;> simp [hk]

/-- A key absent from a well-formed map has no live index. -/
theorem WF_dequeOf_none {V : Type} (keyOf : V → Nat) (mm : Multimap V)
    (k : Nat) (hwf : mm.WF keyOf) (hdq : dequeOf mm.m k = none) :
    liveIdx keyOf mm.items k = [] := by
  obtain ⟨_, _, h3⟩ := hwf
  refine liveIdx_nil_of_no_key keyOf mm.items k ?_
  intro w hw hwk
  obtain ⟨p, hp, hpk⟩ := h3 w (mem_content.mpr hw)
  exact dequeOf_none hdq p hp (hpk.trans hwk)

/-- On a well-formed multimap, `pop_front` behaves as removal of the first
content value with the key, and preserves well-formedness. -/
theorem WF_popFront {V : Type} (keyOf : V → Nat) (mm : Multimap V) (k : Nat)
    (hwf : mm.WF keyOf) :
    ((mm.popFront k).1 = (popFirstKeyed keyOf mm.content k).1) ∧
    ((mm.popFront k).2.content = (popFirstKeyed keyOf mm.content k).2) ∧
    ((mm.popFront k).2.WF keyOf) := by
  obtain ⟨h1, h2, h3⟩ := hwf
  cases hdq : dequeOf mm.m k with
  | none =>
      have hnil := WF_dequeOf_none keyOf mm k ⟨h1, h2, h3⟩ hdq
      have hpop := liveIdx_nil_pop keyOf mm.items k hnil
      have hfst : (popFirstKeyed keyOf mm.content k).1 = none := by
        rw [show mm.content = mm.items.filterMap id from rfl, hpop]
      have hsnd : (popFirstKeyed keyOf mm.content k).2 = mm.content := by
        rw [show mm.content = mm.items.filterMap id from rfl, hpop]
      refine ⟨?_, ?_, ?_⟩
      · simp only [Multimap.popFront, hdq]
        exact hfst.symm
      · simp only [Multimap.popFront, hdq]
        exact hsnd.symm
      · simp only [Multimap.popFront, hdq]
        exact ⟨h1, h2, h3⟩
  | some dq =>
      have hdqe : dq = liveIdx keyOf mm.items k := by
        simpa using h2 (k, dq) (dequeOf_some_mem hdq)
      cases dq with
      | nil =>
          have hpop := liveIdx_nil_pop keyOf mm.items k hdqe.symm
          have hfst : (popFirstKeyed keyOf mm.content k).1 = none := by
            rw [show mm.content = mm.items.filterMap id from rfl, hpop]
          have hsnd : (popFirstKeyed keyOf mm.content k).2 = mm.content := by
            rw [show mm.content = mm.items.filterMap id from rfl, hpop]
          refine ⟨?_, ?_, ?_⟩
          · simp only [Multimap.popFront, hdq]
            exact hfst.symm
          · simp only [Multimap.popFront, hdq]
            exact hsnd.symm
          · simp only [Multimap.popFront, hdq]
            exact ⟨h1, h2, h3⟩
      | cons i rest =>
          obtain ⟨v, hget, hkey, hpop, hliv, hoth⟩ :=
            liveIdx_head_pop keyOf mm.items k i rest hdqe.symm
          have hget' : mm.items.get? i = some (some v) := by
            rw [List.get?_eq_getElem?]; exact hget
          refine ⟨?_, ?_, ?_⟩
          · simp only [Multimap.popFront, hdq, hget']
            rw [show (popFirstKeyed keyOf mm.content k).1 = some v from
              congrArg Prod.fst hpop]
          · simp only [Multimap.popFront, hdq, hget', Multimap.content]
            rw [show (popFirstKeyed keyOf (mm.items.filterMap id) k).2
              = (mm.items.set i none).filterMap id from congrArg Prod.snd hpop]
          · simp only [Multimap.popFront, hdq, hget']
            refine ⟨?_, ?_, ?_⟩
            · show ((setDeque mm.m k rest).map Prod.fst).Nodup
              rw [setDeque_map_fst]; exact h1
            · intro p' hp'
              obtain ⟨p, hp, hpe⟩ := mem_setDeque hp'
              by_cases hpk : p.1 = k
              · rw [if_pos hpk] at hpe
                rw [hpe]
                show rest = liveIdx keyOf (mm.items.set i none) p.1
                rw [hpk, hliv]
              · rw [if_neg hpk] at hpe
                rw [hpe]
                show p.2 = liveIdx keyOf (mm.items.set i none) p.1
                rw [hoth p.1 hpk]
                exact h2 p hp
            · intro w hw
              have hwi : some w ∈ mm.items.set i none := mem_content.mp hw
              have hwm : some w ∈ mm.items := by
                rcases List.mem_or_eq_of_mem_set hwi with hmem | heq
                · exact hmem
                · cases heq
              obtain ⟨p, hp, hpk⟩ := h3 w (mem_content.mpr hwm)
              obtain ⟨p', hp', hp'k⟩ := @setDeque_keys _ k rest _ hp
              exact ⟨p', hp', hp'k.trans hpk⟩

/-- Refinement of the reconciliation loop: on a well-formed previous
collection, the content after `update_children` is the list-level
reconciliation of the previous content, prefixed by the accumulator's
content. -/
theorem updateChildrenGo_content :
    ∀ (desired : List ChildSpec) (prev used : Multimap Instance),
    prev.WF Instance.key →
    (updateChildrenGo prev used desired).content
      = used.content ++ reconcileList prev.content desired
  | [], _, used, _ => by
      simp [updateChildrenGo, reconcileList]
  | d :: rest, prev, used, hwf => by
      obtain ⟨hfst, hsnd, hwf'⟩ := WF_popFront Instance.key prev d.key hwf
      show (updateChildrenGo (updateChildrenStep prev used d).1
        (updateChildrenStep prev used d).2 rest).content = _
      rw [updateChildrenGo_content rest (updateChildrenStep prev used d).1
        (updateChildrenStep prev used d).2 hwf']
      show ((used.pushBack d.key _).content ++
        reconcileList (prev.popFront d.key).2.content rest) = _
      rw [content_pushBack, hsnd]
      show used.content ++
          [(match (prev.popFront d.key).1 with
            | some c => if c.typeId = d.typeId then c
                else Instance.new d.key d.typeId
            | none => Instance.new d.key d.typeId).update d.props] ++
          reconcileList (popFirstKeyed Instance.key prev.content d.key).2 rest
        = _
      rw [hfst]
      show _ = used.content ++ reconcileList prev.content (d :: rest)
      rw [reconcileList]
      simp [List.append_assoc]

/-- The reconciled list carries exactly the desired keys, in order. -/
theorem reconcileList_keys :
    ∀ (desired : List ChildSpec) (pc : List Instance),
    (reconcileList pc desired).map Instance.key = desired.map ChildSpec.key
  | [], _ => rfl
  | d :: rest, pc => by
      rw [reconcileList]
      simp only [List.map_cons]
      rw [reconcileList_keys rest]
      refine congrArg₂ List.cons ?_ rfl
      cases hp : (popFirstKeyed Instance.key pc d.key).1 with
      | none => rfl
      | some c =>
          have hk := popFirstKeyed_fst_key Instance.key pc d.key c hp
          by_cases ht : c.typeId = d.typeId
          · simp [ht, Instance.update, hk]
          · simp [ht, Instance.update, Instance.new]

/-- Entrywise description of the reconciled list under distinct desired
keys: each entry reuses the first previous instance found under its key
when the behaviour type matches and otherwise is freshly constructed, in
either case updated with the entry's props. -/
theorem reconcileList_get :
    ∀ (desired : List ChildSpec) (pc : List Instance),
    (desired.map ChildSpec.key).Nodup →
    ∀ (i : Nat) (d : ChildSpec), desired[i]? = some d →
    (reconcileList pc desired)[i]?
      = some (match pc.find? (fun c => c.key = d.key) with
          | some c =>
              if c.typeId = d.typeId then c.update d.props
              else (Instance.new d.key d.typeId).update d.props
          | none => (Instance.new d.key d.typeId).update d.props)
  | [], _, _, i, d, h => by simp at h
  | d0 :: rest, pc, hnd, i, d, h => by
      cases i with
      | zero =>
          have hd : d0 = d := by simpa using h
          subst hd
          rw [reconcileList]
          simp only [List.getElem?_cons_zero]
          rw [← popFirstKeyed_fst_find]
          cases hp : (popFirstKeyed Instance.key pc d0.key).1 with
          | none => rfl
          | some c => by_cases ht : c.typeId = d0.typeId <;> simp [ht]
      | succ i' =>
          have hd : rest[i']? = some d := by simpa using h
          have hnd' : (rest.map ChildSpec.key).Nodup := by
            simp only [List.map_cons, List.nodup_cons] at hnd
            exact hnd.2
          have hdkey : d.key ≠ d0.key := by
            have hmem : d ∈ rest := List.getElem?_mem hd
            have hin : d.key ∈ rest.map ChildSpec.key :=
              List.mem_map_of_mem _ hmem
            have hnotin : d0.key ∉ rest.map ChildSpec.key := by
              simp only [List.map_cons, List.nodup_cons] at hnd
              exact hnd.1
            exact fun hh => hnotin (hh ▸ hin)
          rw [reconcileList]
          simp only [List.getElem?_cons_succ]
          rw [reconcileList_get rest _ hnd' i' d hd]
          rw [find?_popFirstKeyed_ne Instance.key pc d0.key d.key hdkey]

/-- C2: in a reconciliation pass over a desired child list with distinct
keys, each desired entry whose key finds a previous instance of the same
behaviour type reuses that instance, updated with the new props and
keeping its hook list; a key match with a different behaviour type
constructs a fresh instance (empty hooks, first-update pending until the
update clears it) and the old instance is gone from the collection; and
every previous instance whose key is absent from the desired list is
dropped from the collection. -/
theorem c2_reconcile_reuse_replace_drop (prev : Multimap Instance)
    (desired : List ChildSpec) (hwf : prev.WF Instance.key)
    (hnd : (desired.map ChildSpec.key).Nodup) :
    (∀ (i : Nat) (d : ChildSpec), desired[i]? = some d →
      (updateChildren prev desired).content[i]?
        = some (match prev.content.find? (fun c => c.key = d.key) with
            | some c =>
                if c.typeId = d.typeId then c.update d.props
                else (Instance.new d.key d.typeId).update d.props
            | none => (Instance.new d.key d.typeId).update d.props)) ∧
    (∀ (i : Nat) (d : ChildSpec) (c : Instance), desired[i]? = some d →
      prev.content.find? (fun c' => c'.key = d.key) = some c →
      c.typeId ≠ d.typeId →
      c ∉ (updateChildren prev desired).content) ∧
    (∀ c ∈ prev.content, c.key ∉ desired.map ChildSpec.key →
      c ∉ (updateChildren prev desired).content) := by
  have hcontent : (updateChildren prev desired).content
      = reconcileList prev.content desired := by
    have h := updateChildrenGo_content desired prev Multimap.empty hwf
    simpa [Multimap.empty, Multimap.content] using h
  refine ⟨?_, ?_, ?_⟩
  · intro i d hi
    rw [hcontent]
    exact reconcileList_get desired prev.content hnd i d hi
  · intro i d c hi hf ht hmem
    rw [hcontent] at hmem
    obtain ⟨j, hj⟩ := List.getElem?_of_mem hmem
    have hjlt : j < desired.length := by
      have h1 := (List.getElem?_eq_some.mp hj).1
      have h2 : (reconcileList prev.content desired).length = desired.length := by
        have := congrArg List.length (reconcileList_keys desired prev.content)
        simpa using this
      omega
    obtain ⟨d', hd'⟩ : ∃ d', desired[j]? = some d' := by
      cases hdj : desired[j]? with
      | none =>
          rw [List.getElem?_eq_none_iff] at hdj
          omega
      | some x => exact ⟨x, rfl⟩
    have hspec := reconcileList_get desired prev.content hnd j d' hd'
    have hc : c = (match prev.content.find? (fun c' => c'.key = d'.key) with
        | some c₂ =>
            if c₂.typeId = d'.typeId then c₂.update d'.props
            else (Instance.new d'.key d'.typeId).update d'.props
        | none => (Instance.new d'.key d'.typeId).update d'.props) :=
      Option.some.inj (hj.symm.trans hspec)
    have hckey : c.key = d.key := by
      have := List.find?_some hf
      simpa using this
    have hd'key : c.key = d'.key := by
      rw [hc]
      cases hfind : prev.content.find? (fun c' => c'.key = d'.key) with
      | none => simp [Instance.update, Instance.new]
      | some c₂ =>
          have hk₂ : c₂.key = d'.key := by
            have := List.find?_some hfind
            simpa using this
          by_cases ht₂ : c₂.typeId = d'.typeId <;>
            simp [ht₂, Instance.update, Instance.new, hk₂]
    have hij : i = j := by
      have hmi : (desired.map ChildSpec.key)[i]? = some d.key := by
        rw [List.getElem?_map, hi]; rfl
      have hmj : (desired.map ChildSpec.key)[j]? = some d'.key := by
        rw [List.getElem?_map, hd']; rfl
      have hilt : i < (desired.map ChildSpec.key).length := by
        have := (List.getElem?_eq_some.mp hi).1
        simpa using this
      refine List.getElem?_inj hilt hnd ?_
      rw [hmi, hmj, ← hd'key, hckey]
    have hdd : d' = d := by
      rw [hij] at hi
      have := hd'.symm.trans hi
      injection this
    rw [hdd, hf] at hc
    simp only [if_neg ht] at hc
    have : c.typeId = d.typeId := by
      rw [hc]
      rfl
    exact ht this
  · intro c hc hk hmem
    rw [hcontent] at hmem
    have : c.key ∈ (reconcileList prev.content desired).map Instance.key :=
      List.mem_map_of_mem _ hmem
    rw [reconcileList_keys] at this
    exact hk this

/-- Witness for C2 at the sample collections: the key-1 instance is
reused with its hook list intact and the new props, and the key-9
instance, whose key is absent from the desired list, is dropped. -/
theorem c2_witness :
    ((updateChildren prevW desiredW).content[0]?
      = some { key := 1, typeId := 0, hooks := [5],
               firstUpdate := false, props := 7 }) ∧
    (instStaleW ∉ (updateChildren prevW desiredW).content) := by
  have h := c2_reconcile_reuse_replace_drop prevW desiredW
    (by decide) (by decide)
  constructor
  · have h1 := h.1 0 { key := 1, typeId := 0, props := 7 } rfl
    exact h1.trans (by decide)
  · exact h.2.2 instStaleW (by decide) (by decide)

/-- C7 counterexample: a desired list whose key 5 occurs twice yields two
instances stored under key 5, not exactly one instance per key present in
the desired list. -/
theorem c7_counterexample :
    ¬ ((updateChildren Multimap.empty
        [{ key := 5, typeId := 0, props := 0 },
         { key := 5, typeId := 0, props := 1 }]).content.countP
        (fun c => c.key = 5) = 1) := by decide

/-- C7 as amended: after reconciliation of a well-formed collection, the
collection holds exactly one instance per entry of the desired list — for
each key, as many instances as the key has occurrences, hence exactly one
per key when the desired keys are distinct — and full iteration yields
them in exactly the desired order. -/
theorem c7_child_collection_order (prev : Multimap Instance)
    (desired : List ChildSpec) (hwf : prev.WF Instance.key) :
    ((updateChildren prev desired).content.map Instance.key
      = desired.map ChildSpec.key) ∧
    (∀ k, (updateChildren prev desired).content.countP (fun c => c.key = k)
        = desired.countP (fun d => d.key = k)) := by
  have hcontent : (updateChildren prev desired).content
      = reconcileList prev.content desired := by
    have h := updateChildrenGo_content desired prev Multimap.empty hwf
    simpa [Multimap.empty, Multimap.content] using h
  have hkeys : (updateChildren prev desired).content.map Instance.key
      = desired.map ChildSpec.key := by
    rw [hcontent, reconcileList_keys]
  refine ⟨hkeys, ?_⟩
  intro k
  have h1 := congrArg (List.countP (fun x => decide (x = k))) hkeys
  rw [List.countP_map, List.countP_map] at h1
  exact h1

/-- Witness for C7 at the sample collections: iteration yields keys 1 and
2 in desired order, and key 1 holds exactly one instance. -/
theorem c7_witness :
    ((updateChildren prevW desiredW).content.map Instance.key = [1, 2]) ∧
    ((updateChildren prevW desiredW).content.countP (fun c => c.key = 1) = 1) := by
  have h := c7_child_collection_order prevW desiredW (by decide)
  exact ⟨h.1.trans (by decide), (h.2 1).trans (by decide)⟩

end RatatuiKit
